import Mathlib

/-!
Shallow embedding of the rentfree backend server (`src/server.js`) and proofs
of its specification claims.

The server exposes two routes:
* `GET /api/rooms` — fetches raw 165-byte SPL token account records for a mint,
  aggregates balances per owner wallet, sorts holders by balance descending,
  truncates to `MAX_ROOMS`, assigns roles and room numbers, and caches the
  result for `CACHE_TTL_MS` milliseconds (single cache slot keyed by mint).
* `POST /api/display-name` — validates fields, message tag, name length and a
  detached signature, then upserts a wallet → display-name row.

All machine arithmetic is modelled over `Nat` with explicit `% 2^w` where the
JavaScript semantics truncates, and the JavaScript `Number(...)` conversion of
a BigInt is modelled by explicit IEEE-754 round-to-nearest-even on integers.
-/

namespace Rentfree

/-- Configuration constant `MAX_ROOMS = 80` from server.js. -/
def MAX_ROOMS : Nat := 80

/-- Configuration constant `LANDLORD_TOP_N = 10` from server.js. -/
def LANDLORD_TOP_N : Nat := 10

/-- Configuration constant `CACHE_TTL_MS = 30 * 1000` from server.js. -/
def CACHE_TTL_MS : Nat := 30 * 1000

/-!
`hashToRoom` from server.js:
```js
function hashToRoom(wallet, maxRooms) {
  let hash = 0;
  for (let i = 0; i < wallet.length; i++) {
    hash = (hash * 31 + wallet.charCodeAt(i)) >>> 0;
  }
  return (hash % maxRooms) + 1;
}
```
`>>> 0` truncates to an unsigned 32-bit integer, i.e. `% 2^32`; the
intermediate `hash * 31 + c` is below `2^37` and hence exact in the
JavaScript double, so the `Nat` model with an explicit modulus is faithful.
Wallet strings produced by the server are base58 and hence ASCII, where
`charCodeAt` agrees with the Unicode code point `Char.toNat`.
-/

/-- Model of the character-code accumulation loop body of `hashToRoom`. -/
def hashStep (h : Nat) (c : Char) : Nat :=
  (h * 31 + c.toNat) % 2 ^ 32

/-- Model of the full hash accumulation over the wallet string. -/
def hashVal (wallet : String) : Nat :=
  wallet.data.foldl hashStep 0

/-- Model of `hashToRoom(wallet, maxRooms)` from server.js. -/
def hashToRoom (wallet : String) (maxRooms : Nat) : Nat :=
  hashVal wallet % maxRooms + 1

/-!
Base58 encoding, as performed by `new PublicKey(bytes).toBase58()`:
the 32-byte owner slice is interpreted as a big-endian integer and written in
base 58 over the Bitcoin alphabet, with one leading `'1'` per leading zero
byte.
-/

/-- Bitcoin base58 alphabet used by Solana public keys. -/
def BASE58_ALPHABET : List Char :=
  "123456789ABCDEFGHJKLMNPQRSTUVWXYZabcdefghijkmnopqrstuvwxyz".data

/-- Base58 digits of a positive number, most significant first; structural
recursion on a fuel bound (the value itself bounds the digit count). -/
def base58DigitsAux : Nat → Nat → List Char
  | 0, _ => []
  | fuel + 1, n =>
    if n < 58 then [BASE58_ALPHABET.getD n '?']
    else base58DigitsAux fuel (n / 58) ++ [BASE58_ALPHABET.getD (n % 58) '?']

/-- Base58 digits of a positive number, most significant first. -/
def base58Digits (n : Nat) : List Char :=
  base58DigitsAux n n

/-- Base58 encoding of a byte list (model of `PublicKey.toBase58`). -/
def toBase58 (bytes : List Nat) : String :=
  let zeros := (bytes.takeWhile (· = 0)).length
  let n := bytes.foldl (fun acc b => acc * 256 + b) 0
  let digits := if n = 0 then [] else base58Digits n
  String.mk (List.replicate zeros '1' ++ digits)

/-!
Decoding of a raw 165-byte token account record, from the `/api/rooms`
handler in server.js:
```js
const amountBytes = data.slice(64, 72);
let amount = 0n;
for (let i = 0; i < 8; i++) {
  amount |= BigInt(amountBytes[i]) << (8n * BigInt(i));
}
...
const ownerPubkey = new PublicKey(data.slice(32, 64)).toBase58();
```
A record is modelled as a list of byte values.
-/

/-- Little-endian value of a byte list (first byte is least significant). -/
def leValue : List Nat → Nat
  | [] => 0
  | b :: rest => b + 256 * leValue rest

/-- Model of the little-endian u64 amount at bytes `[64, 72)` of a record. -/
def amountOf (data : List Nat) : Nat :=
  leValue ((data.drop 64).take 8)

/-- Model of the owner wallet, base58 of bytes `[32, 64)` of a record. -/
def ownerOf (data : List Nat) : String :=
  toBase58 ((data.drop 32).take 32)

/-- Little-endian 8-byte encoding of a u64, used to build concrete records. -/
def le8 (n : Nat) : List Nat :=
  [n % 256, n / 256 % 256, n / 256 ^ 2 % 256, n / 256 ^ 3 % 256,
   n / 256 ^ 4 % 256, n / 256 ^ 5 % 256, n / 256 ^ 6 % 256, n / 256 ^ 7 % 256]

/-- Concrete 165-byte token account record with a given owner and amount
(mint bytes and remaining layout fields zeroed, as they are not read). -/
def mkRecord (owner : List Nat) (amount : Nat) : List Nat :=
  List.replicate 32 0 ++ owner ++ le8 amount ++ List.replicate 93 0

/-!
Balance aggregation, from the `/api/rooms` handler:
```js
const holdersMap = new Map();
for (const { account } of accounts) {
  ... decode amount ...
  if (amount === 0n) continue;
  const ownerPubkey = new PublicKey(data.slice(32, 64)).toBase58();
  const current = holdersMap.get(ownerPubkey) || 0n;
  holdersMap.set(ownerPubkey, current + amount);
}
```
A JavaScript `Map` preserves insertion order, and `set` on an existing key
keeps the key's original position; the model is an association list where an
existing key is updated in place and a new key is appended at the end.
-/

/-- Update an insertion-ordered association list: add `v` to the entry of
key `k` in place, or append `(k, v)` when the key is absent. -/
def insertAdd : List (String × Nat) → String → Nat → List (String × Nat)
  | [], k, v => [(k, v)]
  | (k', v') :: rest, k, v =>
    if k' = k then (k', v' + v) :: rest else (k', v') :: insertAdd rest k v

/-- Body of the `holdersMap` aggregation loop: decode the record's amount,
skip it when zero, otherwise accumulate it under the record's owner. -/
def holdersStep (m : List (String × Nat)) (data : List Nat) :
    List (String × Nat) :=
  if amountOf data = 0 then m else insertAdd m (ownerOf data) (amountOf data)

/-- Model of the `holdersMap` aggregation loop of the `/api/rooms` handler. -/
def holdersMapOf (accounts : List (List Nat)) : List (String × Nat) :=
  accounts.foldl holdersStep []

/-- Association-list lookup keyed by decidable string equality. -/
def lookupA : List (String × Nat) → String → Option Nat
  | [], _ => none
  | (k, v) :: rest, w => if k = w then some v else lookupA rest w

/-- Exact sum of the decoded u64 amounts of all records owned by wallet `w`
(the mathematical aggregate the spec talks about). -/
def exactTotal (accounts : List (List Nat)) (w : String) : Nat :=
  ((accounts.filter (fun d => ownerOf d = w)).map amountOf).sum

/-!
The handler converts each BigInt balance to a JavaScript `Number` (a 64-bit
IEEE-754 double) before sorting and serialization:
```js
balance: Number(balance)
```
For a nonnegative integer this conversion rounds to the nearest representable
double, ties to even. Integers below `2^53` are exact; above, the value is
rounded to a multiple of `2^(e-52)` where `e` is the floor of the base-2
logarithm.
-/

/-- Floor of the base-2 logarithm, by structural recursion on a fuel bound
(the value itself bounds the iteration count). -/
def floorLog2Aux : Nat → Nat → Nat
  | 0, _ => 0
  | fuel + 1, n => if n < 2 then 0 else floorLog2Aux fuel (n / 2) + 1

/-- Floor of the base-2 logarithm of a positive number. -/
def floorLog2 (n : Nat) : Nat :=
  floorLog2Aux n n

/-- Model of `Number(n)` for a nonnegative BigInt `n`: IEEE-754
round-to-nearest-even of an integer to double precision. -/
def toFloat64 (n : Nat) : Nat :=
  if n < 2 ^ 53 then n
  else
    let e := floorLog2 n
    let ulp := 2 ^ (e - 52)
    let q := n / ulp
    let r := n % ulp
    if 2 * r < ulp then q * ulp
    else if ulp < 2 * r then (q + 1) * ulp
    else if q % 2 = 0 then q * ulp else (q + 1) * ulp

/-!
Ranking and room assignment, from the `/api/rooms` handler:
```js
let holders = Array.from(holdersMap.entries()).map(([wallet, balance]) => ({
  walletAddress: wallet, balance: Number(balance) }));
holders.sort((a, b) => b.balance - a.balance);
const top = holders.slice(0, MAX_ROOMS);
const withRooms = top.map((h, index) => { ... });
```
The sort comparator places `a` before `b` exactly when `a.balance > b.balance`
(the balances are exact doubles, so the subtraction's sign is exact), and
`Array.prototype.sort` is stable, so the model is a stable sort under the
total preorder `b.balance ≤ a.balance` (insertion sort is such a sort).
-/

/-- Holder list after the `Number` conversion, in map insertion order. -/
def holdersOf (accounts : List (List Nat)) : List (String × Nat) :=
  (holdersMapOf accounts).map (fun p => (p.1, toFloat64 p.2))

/-- Descending-balance order on holders: `a` may precede `b` when
`b.balance ≤ a.balance`. -/
abbrev balGe (a b : String × Nat) : Prop :=
  b.2 ≤ a.2

/-- Stable sort of holders by balance descending (model of
`holders.sort((a, b) => b.balance - a.balance)`). -/
def sortHolders (holders : List (String × Nat)) : List (String × Nat) :=
  holders.insertionSort balGe

/-- Ranked holders after truncation: model of
`holders.sort(...).slice(0, MAX_ROOMS)` — wallet together with its
`Number`-converted balance, in final rank order. -/
def buildTop (accounts : List (List Nat)) : List (String × Nat) :=
  (sortHolders (holdersOf accounts)).take MAX_ROOMS

/-- A serialized directory entry (`withRooms` element in server.js). -/
structure RoomAssignment where
  walletAddress : String
  roomNumber : Nat
  role : String
  balance : String
  displayName : Option String
deriving Repr, DecidableEq, Inhabited

/-- Display-name registry lookup (model of `getNameStmt.get(wallet)`;
the table's primary key makes it an association lookup). -/
def lookupS : List (String × String) → String → Option String
  | [], _ => none
  | (k, v) :: rest, w => if k = w then some v else lookupS rest w

/-- Model of the `top.map((h, index) => ...)` loop: build an assignment per
ranked holder, rank index threaded explicitly. -/
def withRoomsAux (reg : List (String × String)) :
    Nat → List (String × Nat) → List RoomAssignment
  | _, [] => []
  | index, h :: rest =>
    { walletAddress := h.1
      roomNumber := hashToRoom h.1 MAX_ROOMS
      role := if index < LANDLORD_TOP_N then "Landlord" else "Tenant"
      balance := Nat.repr h.2
      displayName := lookupS reg h.1 } :: withRoomsAux reg (index + 1) rest

/-- Model of the full `/api/rooms` pipeline body (aggregate, convert, sort,
truncate, assign): the `withRooms` value of server.js. -/
def buildRooms (accounts : List (List Nat)) (reg : List (String × String)) :
    List RoomAssignment :=
  withRoomsAux reg 0 (buildTop accounts)

/-!
The snapshot cache, from server.js:
```js
let roomsCache = null;
let roomsCacheMint = null;
let roomsCacheUpdatedAt = 0;
...
if (roomsCache && roomsCacheMint === mintBase58 &&
    now - roomsCacheUpdatedAt < CACHE_TTL_MS) {
  return res.json({ rooms: roomsCache, cached: true });
}
... full pipeline ...
roomsCache = withRooms;
roomsCacheMint = mintBase58;
roomsCacheUpdatedAt = now;
res.json({ rooms: withRooms, cached: false });
```
`roomsCache` is truthy exactly when it is a non-null array (an empty array is
truthy in JavaScript), modelled by `Option`. `now - roomsCacheUpdatedAt` is a
JavaScript number subtraction; whenever `now ≥ updatedAt` it agrees with `Nat`
subtraction, and when `now < updatedAt` both the negative JavaScript value and
the truncated `Nat` value `0` are below the TTL, so `Nat` subtraction is
faithful in all cases.
-/

/-- Module-level mutable cache state of server.js. -/
structure ServerState where
  roomsCache : Option (List RoomAssignment)
  roomsCacheMint : Option String
  roomsCacheUpdatedAt : Nat
deriving Repr, DecidableEq

/-- Initial cache state (`null` / `null` / `0`). -/
def initialState : ServerState :=
  ⟨none, none, 0⟩

/-- JSON body of a `/api/rooms` response. -/
structure RoomsResponse where
  rooms : List RoomAssignment
  cached : Bool
deriving Repr, DecidableEq

/-- Cache-hit condition of the `/api/rooms` handler: a snapshot is cached,
its mint matches, and it is fresh. -/
def cacheHit (st : ServerState) (mint : String) (now : Nat) : Prop :=
  st.roomsCache.isSome = true ∧ st.roomsCacheMint = some mint ∧
    now - st.roomsCacheUpdatedAt < CACHE_TTL_MS

instance (st : ServerState) (mint : String) (now : Nat) :
    Decidable (cacheHit st mint now) :=
  inferInstanceAs (Decidable (_ ∧ _ ∧ _))

/-- Model of one sequential `/api/rooms` request: `mint` is the requested
mint (base58), `now` the value of `Date.now()`, `accounts` the records the
upstream fetch would return, and `reg` the display-name table. Returns the
response body and the new cache state. -/
def handleRooms (st : ServerState) (mint : String) (now : Nat)
    (accounts : List (List Nat)) (reg : List (String × String)) :
    RoomsResponse × ServerState :=
  if h : cacheHit st mint now then
    (⟨st.roomsCache.get (by exact h.1), true⟩, st)
  else
    let withRooms := buildRooms accounts reg
    (⟨withRooms, false⟩, ⟨some withRooms, some mint, now⟩)

/-!
Interleaving model for concurrent `/api/rooms` requests. The handler is an
`async` function with exactly one suspension point, the
`await connection.getProgramAccounts(...)` call; everything before it (the
cache check) and everything after it (aggregation, ranking, cache write,
response) runs atomically on the single-threaded event loop. A request is
therefore a two-step program: step one checks the cache and, on a miss,
issues the upstream fetch and suspends; step two resumes after the fetch,
computes the snapshot and writes the cache. A schedule is a list of request
indices; `fetchCount` counts upstream fetches issued.
-/

/-- Phase of one in-flight `/api/rooms` request. -/
inductive ReqPhase where
  | ready
  | fetching
  | finished
deriving Repr, DecidableEq

/-- Global state of the interleaving model: the cache, the number of
upstream fetches issued so far, and each request's phase. -/
structure ConcState where
  cache : ServerState
  fetchCount : Nat
  reqs : List ReqPhase
deriving Repr, DecidableEq

/-- Run one atomic step of request `i` (all requests target the same `mint`
at the same `now`, and the upstream returns the same `accounts`). -/
def stepReq (mint : String) (now : Nat) (accounts : List (List Nat))
    (reg : List (String × String)) (s : ConcState) (i : Nat) : ConcState :=
  match s.reqs.getD i .finished with
  | .ready =>
    if cacheHit s.cache mint now then
      { s with reqs := s.reqs.set i .finished }
    else
      { s with fetchCount := s.fetchCount + 1, reqs := s.reqs.set i .fetching }
  | .fetching =>
    let withRooms := buildRooms accounts reg
    { cache := ⟨some withRooms, some mint, now⟩
      fetchCount := s.fetchCount
      reqs := s.reqs.set i .finished }
  | .finished => s

/-- Run a schedule (a sequence of atomic request steps). -/
def runSched (mint : String) (now : Nat) (accounts : List (List Nat))
    (reg : List (String × String)) (s : ConcState) (sched : List Nat) :
    ConcState :=
  sched.foldl (stepReq mint now accounts reg) s

/-!
The `/api/display-name` handler from server.js:
```js
const { walletAddress, displayName, message, signature } = req.body || {};
if (!walletAddress || !displayName || !message || !signature) {
  return res.status(400).json({ error: "Missing fields" });
}
if (!message.startsWith("RENTFREE_NAME_UPDATE_V1:")) {
  return res.status(400).json({ error: "Invalid message prefix" });
}
if (displayName.length < 1 || displayName.length > 24) {
  return res.status(400).json({ error: "Invalid name length" });
}
const pubkey = new PublicKey(walletAddress);
...
const isValid = nacl.sign.detached.verify(msgBytes, sigBytes, pubkey.toBytes());
if (!isValid) {
  return res.status(401).json({ error: "Signature verification failed" });
}
upsertNameStmt.run({ wallet, name, updated_at: Date.now() });
res.json({ ok: true, walletAddress, displayName });
```
A missing field and a present-but-empty string are both falsy, so both hit
the `Missing fields` branch; an array (even empty) is truthy.
`new PublicKey(walletAddress)` throws on a malformed address, which the
`catch` turns into a 500; the base58 decoding and the Ed25519 verification
are modelled as oracle parameters `keyValid` and `verify`, since only their
boolean outcome is observed by the handler.
-/

/-- Request body of `POST /api/display-name`; `none` models an absent
field. -/
structure NameRequest where
  walletAddress : Option String
  displayName : Option String
  message : Option String
  signature : Option (List Nat)
deriving Repr, DecidableEq

/-- JavaScript truthiness of an optional string field: present and
non-empty. -/
def truthyS : Option String → Bool
  | none => false
  | some s => !(s = "")

/-- JavaScript truthiness of an optional array field: arrays are truthy
even when empty. -/
def truthyL : Option (List Nat) → Bool
  | none => false
  | some _ => true

/-- Model of JavaScript `String.prototype.startsWith`: code-unit prefix
test over the characters of the two strings. -/
def startsWithB : List Char → List Char → Bool
  | _, [] => true
  | [], _ :: _ => false
  | c :: s, p :: ps => if c = p then startsWithB s ps else false

/-- The fixed message tag required by the name-update handler. -/
def NAME_TAG : String := "RENTFREE_NAME_UPDATE_V1:"

/-- Response of `POST /api/display-name`, tagged by HTTP status. -/
inductive NameResponse where
  | ok (walletAddress displayName : String)
  | badRequest (error : String)
  | unauthorized (error : String)
  | serverError (error : String)
deriving Repr, DecidableEq

/-- Display-name registry row set: wallet (primary key), name,
updated-at. -/
def Registry := List (String × String × Nat)

instance : DecidableEq Registry :=
  inferInstanceAs (DecidableEq (List (String × String × Nat)))

/-- Model of the SQLite upsert (`INSERT ... ON CONFLICT(wallet) DO UPDATE`):
replace the row of an existing wallet, else append a new row. -/
def upsertName : Registry → String → String → Nat → Registry
  | [], w, n, t => [(w, n, t)]
  | (w', n', t') :: rest, w, n, t =>
    if w' = w then (w, n, t) :: rest else (w', n', t') :: upsertName rest w n t

/-- Model of the `POST /api/display-name` handler. `keyValid w` tells
whether `new PublicKey(w)` succeeds; `verify w m s` is the outcome of
`nacl.sign.detached.verify` for message `m` and signature `s` under the key
decoded from `w`; `now` is `Date.now()`. Returns the response and the new
registry. -/
def handleDisplayName (keyValid : String → Bool)
    (verify : String → String → List Nat → Bool) (now : Nat)
    (req : NameRequest) (reg : Registry) : NameResponse × Registry :=
  if ¬(truthyS req.walletAddress ∧ truthyS req.displayName ∧
       truthyS req.message ∧ truthyL req.signature) then
    (.badRequest "Missing fields", reg)
  else if ¬ startsWithB (req.message.getD "").data NAME_TAG.data then
    (.badRequest "Invalid message prefix", reg)
  else if (req.displayName.getD "").length < 1
      ∨ 24 < (req.displayName.getD "").length then
    (.badRequest "Invalid name length", reg)
  else if ¬ keyValid (req.walletAddress.getD "") then
    (.serverError "Failed to save display name", reg)
  else if ¬ verify (req.walletAddress.getD "") (req.message.getD "")
      (req.signature.getD []) then
    (.unauthorized "Signature verification failed", reg)
  else
    (.ok (req.walletAddress.getD "") (req.displayName.getD ""),
     upsertName reg (req.walletAddress.getD "") (req.displayName.getD "") now)

/-!
Helper lemmas about aggregation.
-/

/-- Concrete owner used by the example records: 31 zero bytes then `1`. -/
def W1bytes : List Nat := List.replicate 31 0 ++ [1]

/-- Concrete owner used by the example records: 31 zero bytes then `2`. -/
def W2bytes : List Nat := List.replicate 31 0 ++ [2]

/-- Strict lexicographic order on character lists by code unit, as the
JavaScript `<` operator compares the (ASCII) base58 wallet strings. -/
def lexLtB : List Char → List Char → Bool
  | [], [] => false
  | [], _ :: _ => true
  | _ :: _, [] => false
  | a :: s, b :: t =>
    if a.toNat < b.toNat then true
    else if b.toNat < a.toNat then false
    else lexLtB s t

/-- Strict lexicographic order on wallet strings. -/
def walletLt (s t : String) : Prop :=
  lexLtB s.data t.data = true

instance (s t : String) : Decidable (walletLt s t) :=
  inferInstanceAs (Decidable (_ = true))

/-- The ranking order claimed by the spec for directory entries: balance
strictly descending, equal balances tie-broken by ascending lexicographic
wallet order. -/
def claimOrder (a b : String × Nat) : Prop :=
  b.2 < a.2 ∨ (a.2 = b.2 ∧ walletLt a.1 b.1)

instance (a b : String × Nat) : Decidable (claimOrder a b) :=
  inferInstanceAs (Decidable (_ ∨ _))

instance : IsTotal (String × Nat) balGe :=
  ⟨fun a b => Nat.le_total b.2 a.2⟩

instance : IsTrans (String × Nat) balGe :=
  ⟨fun _ _ _ h1 h2 => Nat.le_trans h2 h1⟩

theorem lookupA_insertAdd (m : List (String × Nat)) (k : String) (v : Nat)
    (w : String) :
    lookupA (insertAdd m k v) w =
      if w = k then some ((lookupA m k).getD 0 + v) else lookupA m w := by
  induction m with
  | nil =>
    by_cases h : w = k
    · subst h; simp [insertAdd, lookupA]
    · have hne : ¬ k = w := fun h' => h h'.symm
      simp [insertAdd, lookupA, h, hne]
  | cons p rest ih =>
    obtain ⟨k', v'⟩ := p
    by_cases hk : k' = k
    · subst hk
      by_cases hw : w = k'
      · subst hw; simp [insertAdd, lookupA]
      · have hne : ¬ k' = w := fun h' => hw h'.symm
        simp [insertAdd, lookupA, hw, hne]
    · by_cases hw : w = k
      · subst hw
        simp [insertAdd, lookupA, hk, ih]
      · by_cases hw' : k' = w
        · subst hw'; simp [insertAdd, lookupA, hk, hw]
        · simp [insertAdd, lookupA, hk, hw, hw', ih]

theorem map_fst_insertAdd (m : List (String × Nat)) (k : String) (v : Nat) :
    (insertAdd m k v).map Prod.fst =
      if k ∈ m.map Prod.fst then m.map Prod.fst else m.map Prod.fst ++ [k] := by
  induction m with
  | nil => simp [insertAdd]
  | cons p rest ih =>
    obtain ⟨k', v'⟩ := p
    by_cases hk : k' = k
    · subst hk; simp [insertAdd]
    · have hne : ¬ k = k' := fun h' => hk h'.symm
      simp only [insertAdd, if_neg hk, List.map_cons, ih, List.mem_cons, hne,
        false_or]
      split <;> simp

theorem nodup_insertAdd (m : List (String × Nat)) (k : String) (v : Nat)
    (h : (m.map Prod.fst).Nodup) : ((insertAdd m k v).map Prod.fst).Nodup := by
  rw [map_fst_insertAdd]
  split
  · exact h
  · next hk => simp [List.nodup_append, h, hk]

theorem exactTotal_cons (d : List Nat) (rest : List (List Nat)) (w : String) :
    exactTotal (d :: rest) w =
      (if ownerOf d = w then amountOf d else 0) + exactTotal rest w := by
  by_cases h : ownerOf d = w <;> simp [exactTotal, List.filter_cons, h]

theorem lookupA_foldl_holdersStep (accounts : List (List Nat)) :
    ∀ (m : List (String × Nat)) (w : String),
      lookupA (accounts.foldl holdersStep m) w =
        match lookupA m w with
        | none =>
          if exactTotal accounts w = 0 then none
          else some (exactTotal accounts w)
        | some v => some (v + exactTotal accounts w) := by
  induction accounts with
  | nil =>
    intro m w
    simp only [List.foldl_nil, exactTotal, List.filter_nil, List.map_nil,
      List.sum_nil]
    cases lookupA m w <;> simp
  | cons d rest ih =>
    intro m w
    rw [List.foldl_cons]
    by_cases hz : amountOf d = 0
    · have hstep : holdersStep m d = m := by simp [holdersStep, hz]
      rw [hstep, ih m w, exactTotal_cons]
      by_cases ho : ownerOf d = w <;> simp [ho, hz]
    · have hstep : holdersStep m d = insertAdd m (ownerOf d) (amountOf d) := by
        simp [holdersStep, hz]
      rw [hstep, ih _ w, lookupA_insertAdd, exactTotal_cons]
      by_cases ho : ownerOf d = w
      · subst ho
        rw [if_pos rfl, if_pos rfl]
        cases hm : lookupA m (ownerOf d) with
        | none =>
          have hne : amountOf d + exactTotal rest (ownerOf d) ≠ 0 := by omega
          simp [hm, hne]
        | some v => simp [hm, Nat.add_assoc]
      · have hne : ¬ w = ownerOf d := fun h' => ho h'.symm
        rw [if_neg hne, if_neg ho]
        cases lookupA m w <;> simp

theorem nodup_foldl_holdersStep (accounts : List (List Nat)) :
    ∀ m : List (String × Nat), (m.map Prod.fst).Nodup →
      (((accounts.foldl holdersStep m)).map Prod.fst).Nodup := by
  induction accounts with
  | nil => intro m h; simpa using h
  | cons d rest ih =>
    intro m h
    rw [List.foldl_cons]
    refine ih _ ?_
    by_cases hz : amountOf d = 0
    · simpa [holdersStep, hz] using h
    · rw [show holdersStep m d = insertAdd m (ownerOf d) (amountOf d) by
        simp [holdersStep, hz]]
      exact nodup_insertAdd m _ _ h

/-!
Helper lemmas about sorting and role assignment.
-/

theorem sortHolders_pairwise (l : List (String × Nat)) :
    (sortHolders l).Pairwise balGe :=
  List.sorted_insertionSort balGe l

theorem buildTop_pairwise (accounts : List (List Nat)) :
    (buildTop accounts).Pairwise balGe :=
  List.Pairwise.sublist (List.take_sublist _ _) (sortHolders_pairwise _)

theorem filter_orderedInsert_of_ne (q : (String × Nat) → Bool)
    (a : String × Nat) (l : List (String × Nat)) (hq : q a = false) :
    (List.orderedInsert balGe a l).filter q = l.filter q := by
  induction l with
  | nil => simp [List.orderedInsert, hq]
  | cons x l ih =>
    by_cases h : balGe a x
    · simp [List.orderedInsert, h, hq]
    · simp only [List.orderedInsert, if_neg h, List.filter_cons, ih]

theorem filter_orderedInsert_of_eq (b : Nat) (a : String × Nat)
    (l : List (String × Nat)) (ha : a.2 = b) :
    (List.orderedInsert balGe a l).filter (fun p => p.2 == b)
      = a :: l.filter (fun p => p.2 == b) := by
  induction l with
  | nil => simp [List.orderedInsert, ha]
  | cons x l ih =>
    by_cases h : balGe a x
    · simp only [List.orderedInsert, if_pos h]
      simp [List.filter_cons, ha]
    · have hlt : a.2 < x.2 := Nat.lt_of_not_le h
      have hx : ((fun p : String × Nat => p.2 == b) x) = false := by
        simp only [beq_eq_false_iff_ne, ne_eq]
        omega
      simp only [List.orderedInsert, if_neg h, List.filter_cons, hx,
        Bool.false_eq_true, if_false, ih]

theorem filter_sortHolders (l : List (String × Nat)) (b : Nat) :
    (sortHolders l).filter (fun p => p.2 == b)
      = l.filter (fun p => p.2 == b) := by
  induction l with
  | nil => rfl
  | cons a l ih =>
    have hs : sortHolders (a :: l) = List.orderedInsert balGe a (sortHolders l) :=
      rfl
    rw [hs]
    by_cases ha : a.2 = b
    · rw [filter_orderedInsert_of_eq b a _ ha, ih, List.filter_cons,
        if_pos (by simp [ha])]
    · have hq : ((fun p : String × Nat => p.2 == b) a) = false := by simp [ha]
      rw [filter_orderedInsert_of_ne _ a _ hq, ih, List.filter_cons,
        if_neg (by simp [ha])]

theorem withRoomsAux_length (reg : List (String × String)) :
    ∀ (l : List (String × Nat)) (i : Nat),
      (withRoomsAux reg i l).length = l.length := by
  intro l
  induction l with
  | nil => intro i; rfl
  | cons h rest ih => intro i; simp [withRoomsAux, ih]

theorem withRoomsAux_map_wallet (reg : List (String × String)) :
    ∀ (l : List (String × Nat)) (i : Nat),
      (withRoomsAux reg i l).map RoomAssignment.walletAddress
        = l.map Prod.fst := by
  intro l
  induction l with
  | nil => intro i; rfl
  | cons h rest ih => intro i; simp [withRoomsAux, ih]

theorem withRoomsAux_map_bal (reg : List (String × String)) :
    ∀ (l : List (String × Nat)) (i : Nat),
      (withRoomsAux reg i l).map RoomAssignment.balance
        = l.map (fun p => Nat.repr p.2) := by
  intro l
  induction l with
  | nil => intro i; rfl
  | cons h rest ih => intro i; simp [withRoomsAux, ih]

theorem withRoomsAux_map_role (reg : List (String × String)) :
    ∀ (l : List (String × Nat)) (i : Nat),
      (withRoomsAux reg i l).map RoomAssignment.role
        = List.replicate (min l.length (LANDLORD_TOP_N - i)) "Landlord"
          ++ List.replicate (l.length - (LANDLORD_TOP_N - i)) "Tenant" := by
  intro l
  induction l with
  | nil => intro i; simp [withRoomsAux]
  | cons h rest ih =>
    intro i
    by_cases hi : i < LANDLORD_TOP_N
    · have h1 : min (rest.length + 1) (LANDLORD_TOP_N - i)
          = min rest.length (LANDLORD_TOP_N - (i + 1)) + 1 := by omega
      have h2 : rest.length + 1 - (LANDLORD_TOP_N - i)
          = rest.length - (LANDLORD_TOP_N - (i + 1)) := by omega
      simp only [withRoomsAux, List.map_cons, if_pos hi, ih, List.length_cons,
        h1, h2, List.replicate_succ, List.cons_append]
    · have h1 : LANDLORD_TOP_N - i = 0 := by omega
      have h2 : LANDLORD_TOP_N - (i + 1) = 0 := by omega
      simp only [withRoomsAux, List.map_cons, if_neg hi, ih, List.length_cons,
        h1, h2, Nat.min_zero, Nat.sub_zero, List.replicate_zero,
        List.nil_append, List.replicate_succ]

theorem withRoomsAux_getD (reg : List (String × String)) (d : RoomAssignment) :
    ∀ (l : List (String × Nat)) (i j : Nat), j < l.length →
      (withRoomsAux reg i l).getD j d =
        { walletAddress := (l.getD j ("", 0)).1
          roomNumber := hashToRoom (l.getD j ("", 0)).1 MAX_ROOMS
          role := if i + j < LANDLORD_TOP_N then "Landlord" else "Tenant"
          balance := Nat.repr (l.getD j ("", 0)).2
          displayName := lookupS reg (l.getD j ("", 0)).1 } := by
  intro l
  induction l with
  | nil => intro i j h; simp at h
  | cons x rest ih =>
    intro i j h
    cases j with
    | zero => simp [withRoomsAux]
    | succ j =>
      have hj : j < rest.length := by simpa using h
      have harith : i + 1 + j = i + (j + 1) := by omega
      simpa [withRoomsAux, harith] using ih (i + 1) j hj

/-!
Claim theorems.
-/

/-- Claim C1, counterexample: the directory entry list is NOT tie-broken by
ascending lexicographic wallet order. For two records with equal amount 5,
owner bytes `W2bytes` (base58 `"…13"`) inserted first and `W1bytes`
(base58 `"…12"`) second, the ranked output keeps map-insertion order
`["…13", "…12"]`, while the claimed order would put `"…12"` first; the
ranked holder list violates `claimOrder` pairwise. -/
theorem ranking_tiebreak_counterexample :
    ¬ (buildTop [mkRecord W2bytes 5, mkRecord W1bytes 5]).Pairwise claimOrder
    ∧ (buildRooms [mkRecord W2bytes 5, mkRecord W1bytes 5] []).map
        RoomAssignment.walletAddress
      = ["11111111111111111111111111111113",
         "11111111111111111111111111111112"] := by
  exact ⟨by decide, by decide⟩

/-- Claim C1, amended: the entry list is sorted by balance descending
(non-strictly), and entries with equal balance appear in holder-map
insertion order — the first-seen order of owners in the raw record list —
which is deterministic for a given record list but is not lexicographic
wallet order. The second conjunct ties the serialized entries to the ranked
holder list; the third is the stability property (the sort preserves the
relative order of each equal-balance group). -/
theorem ranking_order_amended (accounts : List (List Nat))
    (reg : List (String × String)) :
    (buildTop accounts).Pairwise balGe
    ∧ (buildRooms accounts reg).map RoomAssignment.walletAddress
        = (buildTop accounts).map Prod.fst
    ∧ ∀ b : Nat,
        (sortHolders (holdersOf accounts)).filter (fun p => p.2 == b)
          = (holdersOf accounts).filter (fun p => p.2 == b) :=
  ⟨buildTop_pairwise accounts,
   withRoomsAux_map_wallet reg (buildTop accounts) 0,
   fun b => filter_sortHolders (holdersOf accounts) b⟩

/-- Claim C2: the code converts each aggregate BigInt balance to a
double-precision `Number` before sorting and serialization, so for the
single record with amount `2^53 + 1` the emitted balance string is
`"9007199254740992"` — the rounded double — while the exact decimal
representation of the summed u64 amounts is `"9007199254740993"`. -/
theorem balance_number_rounding_bug :
    (buildRooms [mkRecord W1bytes (2 ^ 53 + 1)] []).map RoomAssignment.balance
      = ["9007199254740992"]
    ∧ exactTotal [mkRecord W1bytes (2 ^ 53 + 1)] (toBase58 W1bytes)
        = 2 ^ 53 + 1
    ∧ Nat.repr (2 ^ 53 + 1) = "9007199254740993"
    ∧ ("9007199254740992" : String) ≠ "9007199254740993" :=
  ⟨by decide, by decide, by decide, by decide⟩

/-- Claim C3: aggregation produces exactly one entry per distinct owner
wallet (the key list has no duplicates), the entry of wallet `w` holds the
exact sum of the little-endian u64 amounts (bytes `[64,72)`) of all records
whose owner (base58 of bytes `[32,64)`) is `w`, zero-aggregate holders are
absent, and the record set `{W1: 500, W2: 0, W1: 300}` aggregates to exactly
`{W1: 800}` with `W2` absent. -/
theorem aggregation_correct :
    (∀ (accounts : List (List Nat)) (w : String),
        lookupA (holdersMapOf accounts) w =
          if exactTotal accounts w = 0 then none
          else some (exactTotal accounts w))
    ∧ (∀ accounts : List (List Nat),
        ((holdersMapOf accounts).map Prod.fst).Nodup)
    ∧ holdersMapOf [mkRecord W1bytes 500, mkRecord W2bytes 0,
        mkRecord W1bytes 300] = [(toBase58 W1bytes, 800)] := by
  refine ⟨?_, ?_, by decide⟩
  · intro accounts w
    have h := lookupA_foldl_holdersStep accounts [] w
    simpa [holdersMapOf, lookupA] using h
  · intro accounts
    exact nodup_foldl_holdersStep accounts [] (by simp)

/-- Claim C4: for every wallet string and every positive room count `M`,
`hashToRoom` returns a value in `[1, M]`. Purity and dependence on the
wallet alone are structural: `hashToRoom` is a function of exactly the
wallet string and the room count, so identical inputs give identical
outputs and no balance, rank or time enters the computation. -/
theorem hashToRoom_range (w : String) (M : Nat) (hM : 0 < M) :
    1 ≤ hashToRoom w M ∧ hashToRoom w M ≤ M := by
  unfold hashToRoom
  have h := Nat.mod_lt (hashVal w) hM
  omega

/-- Witness for `hashToRoom_range` at a concrete wallet and `M = 80`. -/
theorem hashToRoom_range_witness :
    (0 : Nat) < 80
    ∧ (1 ≤ hashToRoom "11111111111111111111111111111112" 80
       ∧ hashToRoom "11111111111111111111111111111112" 80 ≤ 80) :=
  ⟨by decide, hashToRoom_range "11111111111111111111111111111112" 80 (by decide)⟩

/-- Claim C5: after ranking and truncation, the number of Landlord entries
equals `min (entry count) LANDLORD_TOP_N`; the entry at rank `j` is
Landlord exactly when `j < LANDLORD_TOP_N` and Tenant otherwise; and every
Landlord's (`Number`-converted) balance is at least every Tenant's. -/
theorem roles_assignment (accounts : List (List Nat))
    (reg : List (String × String)) :
    ((buildRooms accounts reg).map RoomAssignment.role).count "Landlord"
      = min (buildRooms accounts reg).length LANDLORD_TOP_N
    ∧ (∀ j, j < (buildRooms accounts reg).length →
        ((buildRooms accounts reg).getD j default).role
          = if j < LANDLORD_TOP_N then "Landlord" else "Tenant")
    ∧ (∀ i j, i < (buildRooms accounts reg).length →
        j < (buildRooms accounts reg).length →
        ((buildRooms accounts reg).getD i default).role = "Landlord" →
        ((buildRooms accounts reg).getD j default).role = "Tenant" →
        ((buildTop accounts).getD j ("", 0)).2
          ≤ ((buildTop accounts).getD i ("", 0)).2) := by
  have hb : buildRooms accounts reg = withRoomsAux reg 0 (buildTop accounts) :=
    rfl
  have hlen : (buildRooms accounts reg).length = (buildTop accounts).length :=
    withRoomsAux_length reg _ 0
  have hrole : ∀ j, j < (buildRooms accounts reg).length →
      ((buildRooms accounts reg).getD j default).role
        = if j < LANDLORD_TOP_N then "Landlord" else "Tenant" := by
    intro j hj
    have hj' : j < (buildTop accounts).length := hlen ▸ hj
    rw [hb, withRoomsAux_getD reg default (buildTop accounts) 0 j hj']
    simp
  refine ⟨?_, hrole, ?_⟩
  · rw [hb, withRoomsAux_map_role reg (buildTop accounts) 0,
      List.count_append, List.count_replicate, List.count_replicate,
      withRoomsAux_length]
    have h1 : (("Landlord" : String) == "Landlord") = true := by decide
    have h2 : (("Tenant" : String) == "Landlord") = false := by decide
    simp [h1, h2]
  · intro i j hi hj hL hT
    have hiK : i < LANDLORD_TOP_N := by
      by_contra hiK
      have h := hrole i hi
      rw [if_neg hiK] at h
      rw [hL] at h
      exact absurd h (by decide)
    have hjK : ¬ j < LANDLORD_TOP_N := by
      intro hjK
      have h := hrole j hj
      rw [if_pos hjK] at h
      rw [hT] at h
      exact absurd h (by decide)
    have hij : i < j := by omega
    have hp := buildTop_pairwise accounts
    rw [List.pairwise_iff_getElem] at hp
    have hi' : i < (buildTop accounts).length := hlen ▸ hi
    have hj' : j < (buildTop accounts).length := hlen ▸ hj
    have hrel := hp i j hi' hj' hij
    rw [List.getD_eq_getElem _ _ hj', List.getD_eq_getElem _ _ hi']
    exact hrel

/-- Witness for `roles_assignment`: for one holder with amount 5, the
single entry (rank 0) carries role Landlord. -/
theorem roles_assignment_witness :
    ((buildRooms [mkRecord W1bytes 5] []).getD 0 default).role
      = if 0 < LANDLORD_TOP_N then "Landlord" else "Tenant" :=
  (roles_assignment [mkRecord W1bytes 5] []).2.1 0 (by decide)

/-- Claim C6: the assignment list of every produced snapshot has length at
most `MAX_ROOMS`, for every input record list and registry. -/
theorem snapshot_size_le_maxRooms (accounts : List (List Nat))
    (reg : List (String × String)) :
    (buildRooms accounts reg).length ≤ MAX_ROOMS := by
  rw [show buildRooms accounts reg = withRoomsAux reg 0 (buildTop accounts)
      from rfl,
    withRoomsAux_length]
  exact List.length_take_le _ _

/-- Claim C7: the `/api/rooms` handler returns the stored snapshot
unchanged, flagged `cached: true` and with the cache state untouched,
exactly when a snapshot is cached, its mint equals the requested mint and
`now - capturedAt < CACHE_TTL_MS`; in every other case (cold start,
different mint, TTL expiry) it runs the pipeline, returns the fresh
snapshot flagged `cached: false`, and replaces the single cache slot with
the new snapshot, mint and timestamp. -/
theorem cache_hit_miss_behavior (st : ServerState) (mint : String)
    (now : Nat) (accounts : List (List Nat)) (reg : List (String × String)) :
    (∀ c, st.roomsCache = some c → st.roomsCacheMint = some mint →
      now - st.roomsCacheUpdatedAt < CACHE_TTL_MS →
      handleRooms st mint now accounts reg = (⟨c, true⟩, st))
    ∧ (¬ cacheHit st mint now →
      handleRooms st mint now accounts reg =
        (⟨buildRooms accounts reg, false⟩,
         ⟨some (buildRooms accounts reg), some mint, now⟩)) := by
  constructor
  · intro c hc hm ht
    have hhit : cacheHit st mint now := ⟨by rw [hc]; rfl, hm, ht⟩
    have hget : ∀ h, st.roomsCache.get h = c := by
      intro h
      apply Option.some_injective
      rw [Option.some_get]
      exact hc
    unfold handleRooms
    rw [dif_pos hhit, hget]
  · intro hmiss
    unfold handleRooms
    rw [dif_neg hmiss]

/-- Witness for `cache_hit_miss_behavior`: a fresh matching cache entry is
served back verbatim with `cached: true`. -/
theorem cache_hit_miss_behavior_witness :
    handleRooms ⟨some [], some "m", 5⟩ "m" 10 [] []
      = (⟨[], true⟩, ⟨some [], some "m", 5⟩) :=
  (cache_hit_miss_behavior ⟨some [], some "m", 5⟩ "m" 10 [] []).1 []
    rfl rfl (by decide)

/-- Claim C9: the code has no miss coalescing. In the interleaving model of
the handler (cache check atomic, upstream fetch at the single `await`
suspension point, cache write after resumption), two concurrent requests
for the same mint that both check the empty cache before either completes
each issue their own upstream fetch: the completed schedule performs 2
fetches, not 1. -/
theorem concurrent_miss_double_fetch :
    (runSched "m" 0 [] [] ⟨initialState, 0, [.ready, .ready]⟩
        [0, 1, 0, 1]).fetchCount = 2
    ∧ (runSched "m" 0 [] [] ⟨initialState, 0, [.ready, .ready]⟩
        [0, 1, 0, 1]).reqs = [.finished, .finished] :=
  ⟨by decide, by decide⟩

/-- Claim C8: the name-update handler performs its checks in the order
field presence, message tag, name length, signature verification, then
registry upsert; each failing check short-circuits with its specific
response (400 for the first three, 401 for signature failure, and a 500
when the wallet address fails to decode before verification), and the
registry is returned unchanged on every non-success path. -/
theorem displayName_check_order (kv : String → Bool)
    (vf : String → String → List Nat → Bool) (now : Nat)
    (req : NameRequest) (reg : Registry) :
    (¬ (truthyS req.walletAddress ∧ truthyS req.displayName ∧
        truthyS req.message ∧ truthyL req.signature) →
      handleDisplayName kv vf now req reg
        = (.badRequest "Missing fields", reg))
    ∧ ((truthyS req.walletAddress ∧ truthyS req.displayName ∧
        truthyS req.message ∧ truthyL req.signature) →
       ¬ startsWithB (req.message.getD "").data NAME_TAG.data →
      handleDisplayName kv vf now req reg
        = (.badRequest "Invalid message prefix", reg))
    ∧ ((truthyS req.walletAddress ∧ truthyS req.displayName ∧
        truthyS req.message ∧ truthyL req.signature) →
       startsWithB (req.message.getD "").data NAME_TAG.data →
       ((req.displayName.getD "").length < 1
         ∨ 24 < (req.displayName.getD "").length) →
      handleDisplayName kv vf now req reg
        = (.badRequest "Invalid name length", reg))
    ∧ ((truthyS req.walletAddress ∧ truthyS req.displayName ∧
        truthyS req.message ∧ truthyL req.signature) →
       startsWithB (req.message.getD "").data NAME_TAG.data →
       ¬ ((req.displayName.getD "").length < 1
         ∨ 24 < (req.displayName.getD "").length) →
       kv (req.walletAddress.getD "") = true →
       vf (req.walletAddress.getD "") (req.message.getD "")
         (req.signature.getD []) = false →
      handleDisplayName kv vf now req reg
        = (.unauthorized "Signature verification failed", reg))
    ∧ ((truthyS req.walletAddress ∧ truthyS req.displayName ∧
        truthyS req.message ∧ truthyL req.signature) →
       startsWithB (req.message.getD "").data NAME_TAG.data →
       ¬ ((req.displayName.getD "").length < 1
         ∨ 24 < (req.displayName.getD "").length) →
       kv (req.walletAddress.getD "") = true →
       vf (req.walletAddress.getD "") (req.message.getD "")
         (req.signature.getD []) = true →
      handleDisplayName kv vf now req reg
        = (.ok (req.walletAddress.getD "") (req.displayName.getD ""),
           upsertName reg (req.walletAddress.getD "")
             (req.displayName.getD "") now))
    ∧ (∀ resp reg2, handleDisplayName kv vf now req reg = (resp, reg2) →
        (∀ w0 d0, resp ≠ .ok w0 d0) → reg2 = reg) := by
  refine ⟨?_, ?_, ?_, ?_, ?_, ?_⟩
  · intro h1
    unfold handleDisplayName
    rw [if_pos h1]
  · intro h1 h2
    unfold handleDisplayName
    rw [if_neg (not_not_intro h1), if_pos h2]
  · intro h1 h2 h3
    unfold handleDisplayName
    rw [if_neg (not_not_intro h1), if_neg (not_not_intro h2), if_pos h3]
  · intro h1 h2 h3 h4 h5
    unfold handleDisplayName
    rw [if_neg (not_not_intro h1), if_neg (not_not_intro h2), if_neg h3,
      if_neg (by simp [h4]), if_pos (by simp [h5])]
  · intro h1 h2 h3 h4 h5
    unfold handleDisplayName
    rw [if_neg (not_not_intro h1), if_neg (not_not_intro h2), if_neg h3,
      if_neg (by simp [h4]), if_neg (by simp [h5])]
  · intro resp reg2 heq hne
    unfold handleDisplayName at heq
    split_ifs at heq <;> cases heq <;> first
      | rfl
      | exact absurd rfl (hne _ _)

/-- Witness for `displayName_check_order`: a well-formed request whose
signature fails verification is rejected with 401 and leaves the registry
unchanged. -/
theorem displayName_check_order_witness :
    handleDisplayName (fun _ => true) (fun _ _ _ => false) 0
      ⟨some "w", some "name", some "RENTFREE_NAME_UPDATE_V1:name", some [1]⟩
      ([] : Registry)
      = (.unauthorized "Signature verification failed", ([] : Registry)) :=
  (displayName_check_order (fun _ => true) (fun _ _ _ => false) 0
      ⟨some "w", some "name", some "RENTFREE_NAME_UPDATE_V1:name", some [1]⟩
      ([] : Registry)).2.2.2.1
    (by decide) (by decide) (by decide) rfl rfl

/-- Claim C10: a name-update request with a present-but-empty `message` or
`displayName` field is rejected as `Missing fields` (400) — the empty
string is falsy — so a zero-length display name is classified as a missing
field, never as an invalid name length, and the tag check never runs for
an empty message. -/
theorem empty_field_missing_fields (kv : String → Bool)
    (vf : String → String → List Nat → Bool) (now : Nat)
    (req : NameRequest) (reg : Registry)
    (h : req.message = some "" ∨ req.displayName = some "") :
    handleDisplayName kv vf now req reg
      = (.badRequest "Missing fields", reg) := by
  unfold handleDisplayName
  rcases h with h | h
  · rw [if_pos]
    rintro ⟨-, -, hm, -⟩
    rw [h] at hm
    simp [truthyS] at hm
  · rw [if_pos]
    rintro ⟨-, hd, -, -⟩
    rw [h] at hd
    simp [truthyS] at hd

/-- Witness for `empty_field_missing_fields`: an empty display name with an
otherwise valid message and signature is still `Missing fields`. -/
theorem empty_field_missing_fields_witness :
    handleDisplayName (fun _ => true) (fun _ _ _ => true) 0
      ⟨some "w", some "", some "RENTFREE_NAME_UPDATE_V1:x", some [1]⟩
      ([] : Registry)
      = (.badRequest "Missing fields", ([] : Registry)) :=
  empty_field_missing_fields (fun _ => true) (fun _ _ _ => true) 0
    ⟨some "w", some "", some "RENTFREE_NAME_UPDATE_V1:x", some [1]⟩
    ([] : Registry) (Or.inr rfl)

end Rentfree
